/-
Verification of the NewsSage text-analytics pipeline
(src/utils/nlp_processor.py and src/utils/translator.py).

Shallow embedding notes:
* spaCy's `nlp` call is modelled as an abstract, fallible function
  `String → Except String Doc`; a `Doc` carries the attributes the code
  reads (sentences, tokens, entities, vector-norm truthiness).
  `doc.similarity` and `re.search` are likewise abstract model fields.
  `nlp` is a function of its input string, so the source's repeated
  `nlp(s)` calls on the same string denote the same value.
* Python strings are sequences of code points, modelled as Lean `String`
  with character-list based operations (`pyLower`, `pyStrip`,
  `pyReplace`, ...) matching Python's `lower`, `strip`, `replace`,
  `capitalize` and `in`.
* Python floats are modelled as exact rationals; `round(x, 2)` is
  round-half-to-even on rationals (`round2`).
* `collections.Counter` is an insertion-ordered association list
  (`bump` / `wordFreq`); `Counter.most_common(k)` is a stable descending
  sort by count followed by `take k`, which matches CPython's documented
  behaviour (stable `nlargest`).
* The OpenAI client used by the translator is an abstract, fallible
  function `String → String → Except String String`.
-/
import Mathlib

/-! ### The abstract NLP model (spaCy and `re`) -/

/-- One spaCy token, with the attributes the source reads:
`token.text`, `token.lemma_`, `token.pos_`, `token.is_stop`,
`token.is_punct`.  (`lemma` is a reserved word in Lean, hence `lemma_`,
matching the spaCy attribute spelling.) -/
structure Token where
  text : String
  lemma_ : String
  pos : String
  is_stop : Bool
  is_punct : Bool
  deriving DecidableEq, Repr

/-- One spaCy entity span: `ent.text` and `ent.label_`. -/
structure Ent where
  text : String
  label : String
  deriving DecidableEq, Repr

/-- A processed spaCy document: the attributes read by the source.
`sents` holds the raw `sent.text` values in document order, `toks` the
tokens, `ents` the entity spans, and `vecnorm` the truthiness of
`doc.vector_norm`. -/
structure Doc where
  sents : List String
  toks : List Token
  ents : List Ent
  vecnorm : Bool
  deriving DecidableEq, Repr

instance : Inhabited Doc := ⟨⟨[], [], [], false⟩⟩

/-- The external-library model: spaCy's `nlp` (fallible, as any call may
raise), `doc.similarity` on two processed documents, and `re.search`
(pattern, string ↦ matched span, if any). -/
structure Model where
  nlp : String → Except String Doc
  sim : Doc → Doc → ℚ
  reSearch : String → String → Option String

/-! ### Python string primitives -/

/-- Python `str.lower()` (ASCII-adequate, as in the taxonomy tables). -/
def pyLower (s : String) : String :=
  String.mk (s.toList.map Char.toLower)

/-- Python `str.strip()`: drop whitespace from both ends. -/
def pyStrip (s : String) : String :=
  String.mk (((s.toList.dropWhile Char.isWhitespace).reverse.dropWhile
    Char.isWhitespace).reverse)

/-- Python `str.capitalize()`: first character upper-cased, the rest
lower-cased. -/
def pyCapitalize (s : String) : String :=
  match s.toList with
  | [] => ""
  | c :: cs => String.mk (c.toUpper :: cs.map Char.toLower)

/-- Auxiliary for Python's substring test: does `sub` occur inside `l`? -/
def hasSubAux (sub : List Char) : List Char → Bool
  | [] => sub.isEmpty
  | c :: rest => sub.isPrefixOf (c :: rest) || hasSubAux sub rest

/-- Python `sub in s` on strings. -/
def hasSub (s sub : String) : Bool :=
  hasSubAux sub.toList s.toList

/-- Auxiliary for Python `str.replace`: replace every (non-overlapping,
leftmost-first) occurrence of the nonempty pattern `o :: os` by `new`.
The extra fuel argument (instantiated to the list length, which always
suffices) only makes the recursion structural. -/
def pyReplaceAux (o : Char) (os new : List Char) : Nat → List Char → List Char
  | _, [] => []
  | 0, l => l
  | fuel + 1, c :: t =>
    if (o :: os).isPrefixOf (c :: t) then
      new ++ pyReplaceAux o os new fuel (t.drop os.length)
    else
      c :: pyReplaceAux o os new fuel t

/-- Python `s.replace(old, new)`: replaces every occurrence; with an
empty pattern, Python inserts `new` around every character. -/
def pyReplace (s old new : String) : String :=
  match old.toList with
  | [] => String.mk (new.toList ++ s.toList.flatMap (fun c => c :: new.toList))
  | o :: os => String.mk (pyReplaceAux o os new.toList s.toList.length s.toList)

/-- Auxiliary for Python `str.split(sep)` with a nonempty separator:
cut at every (leftmost, non-overlapping) occurrence of `sep`.  `acc`
holds the current fragment reversed; the fuel (instantiated to the list
length, which always suffices) makes the recursion structural. -/
def pySplitAux (sep : List Char) : Nat → List Char → List Char → List (List Char)
  | _, acc, [] => [acc.reverse]
  | 0, acc, l => [acc.reverse ++ l]
  | fuel + 1, acc, c :: t =>
    if sep.isPrefixOf (c :: t) then
      acc.reverse :: pySplitAux sep fuel [] ((c :: t).drop sep.length)
    else
      pySplitAux sep fuel (c :: acc) t

/-- Python `s.split(sep)` for a nonempty separator; in particular
`"".split(sep) = [""]`. -/
def pySplit (s sep : String) : List String :=
  (pySplitAux sep.toList s.toList.length [] s.toList).map String.mk

/-! ### Python `round(x, 2)` on exact rationals -/

/-- Round-half-to-even to the nearest integer (Python's `round`). -/
def roundHalfEven (q : ℚ) : ℤ :=
  if q - ⌊q⌋ < 1/2 then ⌊q⌋
  else if 1/2 < q - ⌊q⌋ then ⌊q⌋ + 1
  else if ⌊q⌋ % 2 = 0 then ⌊q⌋ else ⌊q⌋ + 1

/-- Python `round(q, 2)` as an exact rational. -/
def round2 (q : ℚ) : ℚ :=
  (roundHalfEven (q * 100) : ℚ) / 100

/-! ### `collections.Counter` as an insertion-ordered association list -/

/-- Python dict update `counter[k] += 1`: bump the count of `k`, appending a fresh entry
(count 1) at the end on first sight — Python dicts preserve insertion
order. -/
def bump (l : List (String × Nat)) (k : String) : List (String × Nat) :=
  match l with
  | [] => [(k, 1)]
  | (a, c) :: rest => if a = k then (a, c + 1) :: rest else (a, c) :: bump rest k

/-- CPython `Counter.most_common(k)`: stable sort by count, descending, then the
first `k` entries (CPython's `nlargest` is equivalent to a stable
descending sort followed by slicing). -/
def mostCommon (l : List (String × Nat)) (k : Nat) : List (String × Nat) :=
  (l.mergeSort (fun a b => b.2 ≤ a.2)).take k

/-! ### Python `max(items, key=lambda x: x[1])` and first-seen dedup -/

/-- Python `max(l, key=lambda x: x[1])` on a nonempty list: keeps the
first element attaining the maximal second component (Python's `max`
only replaces the current best on a strict increase). -/
def pyMaxBySecond (l : List (String × Nat)) : String × Nat :=
  match l with
  | [] => ("", 0)
  | x :: rest => rest.foldl (fun b y => if b.2 < y.2 then y else b) x

/-- Deduplication keeping the first occurrence of each element, given
the elements already seen. -/
def dedupFSAux [DecidableEq α] (seen : List α) : List α → List α
  | [] => []
  | a :: t => if a ∈ seen then dedupFSAux seen t else a :: dedupFSAux (seen ++ [a]) t

/-- Deduplication keeping the first occurrence of each element. -/
def dedupFirstSeen [DecidableEq α] (l : List α) : List α :=
  dedupFSAux [] l

/-! ### Result data types -/

/-- One entry of the keyword list: `{"text": ..., "relevance": ...}`. -/
structure NlpKeyword where
  text : String
  relevance : ℚ
  deriving DecidableEq, Repr

/-- One entry of the dates/events list: `{"date": ..., "event": ...}`. -/
structure DateEvent where
  date : String
  event : String
  deriving DecidableEq, Repr

/-- One entry of the topics list: `{"name": ..., "keywords": ...}`. -/
structure Topic where
  name : String
  keywords : List String
  deriving DecidableEq, Repr

/-- The dictionary returned by `process_article`: a field is `none` when
the corresponding key is absent from the Python dict. -/
structure ProcDict where
  success : Bool
  summary : Option String
  people : Option (List String)
  dates_events : Option (List DateEvent)
  category : Option String
  keywords : Option (List NlpKeyword)
  topics : Option (List Topic)
  error : Option String
  deriving DecidableEq, Repr

/-! ### `create_summary` (nlp_processor.py lines 16-65) -/

/-- One cell of the similarity matrix for sentence indices `i`, `j`
given the per-sentence docs: `0` on the diagonal, else
`doc_i.similarity(doc_j)` when both vector norms are truthy, else the
matrix's initial `0`. -/
def entryAt (m : Model) (docs : List Doc) (i j : Nat) : ℚ :=
  if i = j then 0
  else
    let di := docs.getD i default
    let dj := docs.getD j default
    if di.vecnorm && dj.vecnorm then m.sim di dj else 0

/-- Row sums `sentence_scores[i] = np.sum(similarity_matrix, axis=1)[i]`. -/
def rowScore (m : Model) (docs : List Doc) (i : Nat) : ℚ :=
  ((List.range docs.length).map (entryAt m docs i)).sum

/-- Function `create_summary` (lines 16-65).  The source computes `nlp(sentences[i])`
and `nlp(sentences[j])` inside the pair loop; `nlp` is a function of its
argument, so we obtain every per-sentence doc once with `mapM`.
`np.argsort(scores)[::-1]` is modelled as a (stable) merge sort by
ascending score, reversed; numpy's default sort fixes no tie order, and
no claim depends on one. -/
def create_summary (m : Model) (text : String) (sentences_count : Nat := 5) :
    Except String String := do
  let doc ← m.nlp text
  let sentences := doc.sents.map pyStrip
  if sentences.length ≤ sentences_count then
    pure text
  else do
    let docs ← sentences.mapM m.nlp
    let scores := rowScore m docs
    let ranked := ((List.range sentences.length).mergeSort
      (fun i j => scores i ≤ scores j)).reverse
    let top_indices := ranked.take sentences_count
    let sorted_top := top_indices.mergeSort (fun i j => i ≤ j)
    pure (" ".intercalate (sorted_top.map (fun i => sentences.getD i "")))

/-! ### `extract_people` (lines 112-128) -/

/-- Function `extract_people` (lines 112-128): collect `PERSON` entity texts,
skipping exact duplicates, keep the first 10; any error from the
recognizer (`nlp`) is swallowed and yields `[]`. -/
def extract_people (m : Model) (text : String) : List String :=
  match m.nlp text with
  | .error _ => []
  | .ok doc =>
    let people := (doc.ents.filter (fun e => e.label = "PERSON")).foldl
      (fun acc e => if e.text ∈ acc then acc else acc ++ [e.text]) []
    people.take 10

/-! ### `extract_dates_events` (lines 130-190) -/

/-- The three explicit date regular expressions (lines 138-142), kept as
opaque pattern strings handed to the abstract `re.search`. -/
def date_patterns : List String :=
  ["\\b(?:Jan(?:uary)?|Feb(?:ruary)?|Mar(?:ch)?|Apr(?:il)?|May|Jun(?:e)?|Jul(?:y)?|Aug(?:ust)?|Sep(?:tember)?|Oct(?:ober)?|Nov(?:ember)?|Dec(?:ember)?)\\s+\\d\x7b1,2\x7d(?:st|nd|rd|th)?,\\s+\\d\x7b4\x7d\\b",
   "\\b\\d\x7b1,2\x7d\\s+(?:Jan(?:uary)?|Feb(?:ruary)?|Mar(?:ch)?|Apr(?:il)?|May|Jun(?:e)?|Jul(?:y)?|Aug(?:ust)?|Sep(?:tember)?|Oct(?:ober)?|Nov(?:ember)?|Dec(?:ember)?)\\s+\\d\x7b4\x7d\\b",
   "\\b(?:Monday|Tuesday|Wednesday|Thursday|Friday|Saturday|Sunday),\\s+(?:Jan(?:uary)?|Feb(?:ruary)?|Mar(?:ch)?|Apr(?:il)?|May|Jun(?:e)?|Jul(?:y)?|Aug(?:ust)?|Sep(?:tember)?|Oct(?:ober)?|Nov(?:ember)?|Dec(?:ember)?)\\s+\\d\x7b1,2\x7d\\b"]

/-- The relative-time vocabulary (lines 169-170). -/
def time_indicators : List String :=
  ["today", "yesterday", "last week", "last month", "last year",
   "this week", "this month", "this year", "next week"]

/-- The per-sentence date search of lines 148-177, in source priority
order: first spaCy `DATE` entity, else first regex match, else first
relative-time phrase found in the lower-cased sentence (capitalized as
the date string).  Returns the `date_str` found, if any. -/
def findDate (m : Model) (sentence : String) : Except String (Option String) := do
  let sent_doc ← m.nlp sentence
  match sent_doc.ents.find? (fun e => e.label = "DATE") with
  | some e => pure (some e.text)
  | none =>
    match date_patterns.findSome? (fun p => m.reSearch p sentence) with
    | some s => pure (some s)
    | none =>
      match time_indicators.find? (fun ind => hasSub (pyLower sentence) ind) with
      | some ind => pure (some (pyCapitalize ind))
      | none => pure none

/-- Function `extract_dates_events` (lines 130-190): per stripped sentence, find
a date (`findDate`); if found and the sentence is under 300 characters,
derive `event` by deleting the date string (Python `replace`: every
occurrence) and stripping; keep the entry when the event exceeds 10
characters; finally return the first 5 entries. -/
def extract_dates_events (m : Model) (text : String) : Except String (List DateEvent) := do
  let doc ← m.nlp text
  let sentences := doc.sents.map pyStrip
  let dates_events ← sentences.foldlM (fun acc sentence => do
    match (← findDate m sentence) with
    | none => pure acc
    | some date_str =>
      if sentence.length < 300 then
        let event := pyStrip (pyReplace sentence date_str "")
        if 10 < event.length then pure (acc ++ [⟨date_str, event⟩])
        else pure acc
      else pure acc) []
  pure (dates_events.take 5)

/-! ### `extract_keywords` (lines 192-233) -/

/-- The candidate filter of line 216: POS in `{NOUN, PROPN, ADJ}`, not a
stopword, not punctuation, text longer than 2 characters. -/
def kwCandidate (t : Token) : Bool :=
  (t.pos = "NOUN" || t.pos = "PROPN" || t.pos = "ADJ")
    && !t.is_stop && !t.is_punct && decide (2 < t.text.length)

/-- The `word_freq` Counter of lines 213-219: accumulate the lower-cased
lemma of every candidate token, in document order. -/
def wordFreq (toks : List Token) : List (String × Nat) :=
  toks.foldl (fun acc t => if kwCandidate t then bump acc (pyLower t.lemma_) else acc) []

/-- Function `extract_keywords` (lines 192-233): Counter of candidate lemmas,
normalized by the top frequency (`1` when the Counter is empty), scores
rounded to 2 decimals, top `max_keywords` entries. -/
def extract_keywords (m : Model) (text : String) (max_keywords : Nat := 10) :
    Except String (List NlpKeyword) := do
  let doc ← m.nlp text
  let word_freq := wordFreq doc.toks
  let max_freq := match mostCommon word_freq 1 with
    | (_, c) :: _ => c
    | [] => 1
  pure ((mostCommon word_freq max_keywords).map
    (fun p => ⟨p.1, round2 ((p.2 : ℚ) / (max_freq : ℚ))⟩))

/-! ### The category taxonomy (lines 257-272 and 330-345) -/

/-- The fixed category-keyword taxonomy, in declaration order.  The same
table appears verbatim in `identify_topics` (lines 257-272) and
`determine_category` (lines 330-345). -/
def category_keywords : List (String × List String) :=
  [("Politics", ["government", "president", "election", "vote", "party", "senator",
      "congress", "democrat", "republican", "policy", "political", "bill", "law",
      "court", "justice"]),
   ("Business", ["market", "stock", "company", "economy", "economic", "finance",
      "financial", "trade", "investment", "investor", "profit", "bank", "industry",
      "corporate", "ceo"]),
   ("Technology", ["tech", "technology", "software", "hardware", "digital",
      "internet", "computer", "app", "device", "startup", "innovation", "developer",
      "programming", "ai", "artificial intelligence"]),
   ("Health", ["health", "medical", "doctor", "patient", "hospital", "disease",
      "treatment", "drug", "medicine", "vaccine", "virus", "pandemic", "care",
      "healthcare", "covid"]),
   ("Sports", ["game", "team", "player", "season", "match", "win", "score",
      "championship", "coach", "league", "tournament", "athlete", "sport",
      "football", "soccer", "basketball", "baseball"]),
   ("Entertainment", ["movie", "film", "show", "music", "actor", "actress",
      "celebrity", "star", "director", "release", "award", "performance",
      "entertainment", "hollywood", "tv", "television"]),
   ("Science", ["science", "research", "study", "scientist", "discovery", "space",
      "physics", "biology", "chemistry", "experiment", "theory", "academic",
      "climate", "environment", "earth"])]

/-! ### `determine_category` (lines 327-367) -/

/-- The token filter and lower-casing of line 354. -/
def catWords (doc : Doc) : List String :=
  (doc.toks.filter (fun t => !t.is_stop && !t.is_punct)).map (fun t => pyLower t.text)

/-- The `category_scores` dict of lines 351-359: per category (in
declaration order), the number of filtered tokens that are exact members
of its keyword set.  The source increments a counter inside a loop over
the words; the final counter value is that count. -/
def catScores (doc : Doc) : List (String × Nat) :=
  category_keywords.map (fun ck => (ck.1, (catWords doc).countP (fun w => w ∈ ck.2)))

/-- Function `determine_category` (lines 327-367): "General" when every score is
zero, else the first category (declaration order) with the maximal
score, per Python's `max` over the insertion-ordered dict. -/
def determine_category (m : Model) (text : String) : Except String String := do
  let doc ← m.nlp text
  let scores := catScores doc
  if scores.all (fun s => s.2 = 0) then pure "General"
  else pure (pyMaxBySecond scores).1

/-! ### `identify_topics` (lines 236-324) -/

/-- The per-paragraph key-term filter of lines 284-288: POS in
`{NOUN, PROPN}`, not a stopword, text longer than 2 characters (note: no
punctuation filter here, unlike `extract_keywords`); yields the
lower-cased lemmas in order. -/
def keyTerms (doc : Doc) : List String :=
  ((doc.toks.filter (fun t =>
      (t.pos = "NOUN" || t.pos = "PROPN") && !t.is_stop
        && decide (2 < t.text.length))).map (fun t => pyLower t.lemma_))

/-- Lines 298-319, for one keyword group: count taxonomy hits per
category (dict in first-hit insertion order), name the topic after the
first maximal category ("General" when no term hits the taxonomy) and
the up-to-3 most frequent terms, and attach the first 5 deduplicated
terms.  CPython iterates `set(terms)` in an unspecified order; it is
modelled as first-seen order (the spec records this set as unordered).
Returns `none` when `main_terms` is empty (the `if main_terms:` guard of
line 314). -/
def mkTopic (terms : List String) : Option Topic :=
  let category_matches := terms.foldl (fun acc term =>
    category_keywords.foldl (fun acc2 ck => if term ∈ ck.2 then bump acc2 ck.1 else acc2) acc) []
  let main_category := match category_matches with
    | [] => "General"
    | _ => (pyMaxBySecond category_matches).1
  let term_counts := terms.foldl bump []
  let main_terms := (mostCommon term_counts 3).map (fun p => p.1)
  if main_terms.isEmpty then none
  else some ⟨main_category ++ ": " ++ ", ".intercalate main_terms,
    (dedupFirstSeen terms).take 5⟩

/-- Function `identify_topics` (lines 236-324): split into blank-line paragraphs
(stripped, nonempty); per paragraph of at least 100 characters, extract
key terms and keep groups with more than one term; build one topic per
group; order topics by keyword-set size descending (Python's stable
`sorted` with `reverse=True`), and return the first `max_topics`. -/
def identify_topics (m : Model) (text : String) (max_topics : Nat := 5) :
    Except String (List Topic) := do
  let _doc ← m.nlp text
  let paragraphs := ((pySplit text "\n\n").map pyStrip).filter (fun p => p ≠ "")
  let keyword_groups ← paragraphs.foldlM (fun acc paragraph => do
    if paragraph.length < 100 then pure acc
    else do
      let para_doc ← m.nlp paragraph
      let key_terms := keyTerms para_doc
      if 1 < key_terms.length then pure (acc ++ [key_terms]) else pure acc) []
  let topics := keyword_groups.filterMap mkTopic
  pure ((topics.mergeSort (fun a b => b.keywords.length ≤ a.keywords.length)).take max_topics)

/-! ### `process_article` (lines 67-110) -/

/-- The body of the `try:` block of lines 78-105: run the six stages on
the article text; an exception in any stage aborts the whole
computation with that error. -/
def runStages (m : Model) (article_text : String) :
    Except String (String × List String × List DateEvent × String ×
      List NlpKeyword × List Topic) := do
  let summary ← create_summary m article_text
  let people := extract_people m article_text
  let dates_events ← extract_dates_events m article_text
  let category ← determine_category m article_text
  let keywords ← extract_keywords m article_text
  let topics ← identify_topics m article_text
  pure (summary, people, dates_events, category, keywords, topics)

/-- Function `process_article` (lines 67-110): on success, a dict with
`success=True` and the six fields; on any exception, a dict with only
`success=False` and the captured error message.  (`article_title` is
accepted and unused, as in the source.) -/
def process_article (m : Model) (article_text : String) (article_title : String := "") :
    ProcDict :=
  match runStages m article_text with
  | .ok (summary, people, dates_events, category, keywords, topics) =>
    ⟨true, some summary, some people, some dates_events, some category,
      some keywords, some topics, none⟩
  | .error e => ⟨false, none, none, none, none, none, none, some e⟩

/-! ### translator.py -/

/-- The external OpenAI chat-completion call of translator.py lines
45-59, abstracted: text and target language to the extracted response
content, or a raised exception. -/
structure Client where
  translate : String → String → Except String String

/-- Function `translate_text` (translator.py lines 27-64): identity when the
target is English or the text is empty; otherwise the client's
translation, with any exception swallowed into the original text plus an
appended `[Translation Error: ...]` message. -/
def translate_text (c : Client) (text : String) (target_language : String := "English") :
    String :=
  if target_language = "English" || text = "" then text
  else
    match c.translate text target_language with
    | .ok translated_text => translated_text
    | .error e => text ++ "\n\n[Translation Error: " ++ e ++ "]"

/-- Function `translate_nlp_result` (translator.py lines 66-100): identity for
English; otherwise a copy with `summary` (when present and nonempty) and
each nonempty `dates_events[i].event` translated.  Python's
`nlp_result.get(key)` truthiness check is: key present and value
nonempty. -/
def translate_nlp_result (c : Client) (nlp_result : ProcDict)
    (target_language : String := "English") : ProcDict :=
  if target_language = "English" then nlp_result
  else
    let r1 := match nlp_result.summary with
      | some s => if s ≠ "" then
          { nlp_result with summary := some (translate_text c s target_language) }
        else nlp_result
      | none => nlp_result
    match nlp_result.dates_events with
    | some des =>
      if des ≠ [] then
        { r1 with dates_events := some (des.map (fun de =>
            if de.event ≠ "" then
              { de with event := translate_text c de.event target_language }
            else de)) }
      else r1
    | none => r1

/-! ### Concrete model instances used to exercise the theorems -/

/-- A document with no sentences, tokens or entities (what spaCy yields
on empty input). -/
def emptyDoc : Doc := ⟨[], [], [], false⟩

/-- A model whose `nlp` always succeeds with the empty document. -/
def okModel : Model := ⟨fun _ => .ok emptyDoc, fun _ _ => 0, fun _ _ => none⟩

/-- A model whose `nlp` always raises. -/
def errModel : Model := ⟨fun _ => .error "boom", fun _ _ => 0, fun _ _ => none⟩

/-- A document with person entities (one duplicated) and one
non-person entity. -/
def personDoc : Doc :=
  ⟨[], [], [⟨"Alice Smith", "PERSON"⟩, ⟨"Bob Lee", "PERSON"⟩,
    ⟨"Alice Smith", "PERSON"⟩, ⟨"Acme", "ORG"⟩], false⟩

/-- A model recognizing the entities of `personDoc` in every text. -/
def personModel : Model := ⟨fun _ => .ok personDoc, fun _ _ => 0, fun _ _ => none⟩

/-- A document holding a single token matching the Politics taxonomy. -/
def catDoc : Doc := ⟨[], [⟨"government", "government", "NOUN", false, false⟩], [], false⟩

/-- A model producing `catDoc` for every text. -/
def catModel : Model := ⟨fun _ => .ok catDoc, fun _ _ => 0, fun _ _ => none⟩

/-- Qualifying tokens for the keyword counterexample: lemma frequencies
201, 200 and 1. -/
def kwDoc : Doc :=
  ⟨[], List.replicate 201 ⟨"aaa", "aaa", "NOUN", false, false⟩
    ++ List.replicate 200 ⟨"bbb", "bbb", "NOUN", false, false⟩
    ++ [⟨"ccc", "ccc", "NOUN", false, false⟩], [], false⟩

/-- A model producing `kwDoc` for every text. -/
def kwModel : Model := ⟨fun _ => .ok kwDoc, fun _ _ => 0, fun _ _ => none⟩

/-- The sentence of the spec's relative-time scenario. -/
def obamaSent : String := "Barack Obama met with leaders today."

/-- A model that splits the text `"TXT"` into the single sentence
`obamaSent`, recognizes no entities and matches no regex, so the
relative-time branch fires on "today". -/
def dateModel : Model :=
  ⟨fun s => if s = "TXT" then .ok ⟨[obamaSent], [], [], false⟩ else .ok emptyDoc,
   fun _ _ => 0, fun _ _ => none⟩

/-- Six distinct sentences for the summarizer theorem. -/
def sixSents : List String :=
  ["Alpha one.", "Beta two.", "Gamma three.", "Delta four.", "Epsilon five.", "Zeta six."]

/-- A model that splits `"TXT"` into `sixSents`; per-sentence docs carry
no vectors, so all similarity scores are zero. -/
def sumModel : Model :=
  ⟨fun s => if s = "TXT" then .ok ⟨sixSents, [], [], false⟩ else .ok emptyDoc,
   fun _ _ => 0, fun _ _ => none⟩

/-- A translation client that always raises. -/
def failClient : Client := ⟨fun _ _ => .error "boom"⟩

/-! ### Generic helper lemmas -/

theorem ebind_ok {α β : Type} (a : α) (f : α → Except String β) :
    (Except.ok a >>= f) = f a := rfl

theorem ebind_err {α β : Type} (e : String) (f : α → Except String β) :
    ((Except.error e : Except String α) >>= f) = Except.error e := rfl

theorem epure {α : Type} (a : α) : (pure a : Except String α) = Except.ok a := rfl

/-! ### C10: translate_text boundary behaviour -/

/-- C10: `translate_text` returns the text unchanged when the target
language is "English" or the text is empty; and when the external
translation call raises, it never propagates the error but returns the
original text with a `[Translation Error: ...]` message appended. -/
theorem C10_translate_text_boundary (c : Client) (text target : String) :
    translate_text c text "English" = text ∧
    translate_text c "" target = "" ∧
    (∀ e, target ≠ "English" → text ≠ "" → c.translate text target = .error e →
      translate_text c text target = text ++ "\n\n[Translation Error: " ++ e ++ "]") := by
  refine ⟨by simp [translate_text], by simp [translate_text], ?_⟩
  intro e h1 h2 h3
  simp [translate_text, h1, h2, h3]

/-- Witness for C10: a client that raises yields the original text with
the appended error message. -/
theorem C10_witness :
    translate_text failClient "hola" "Spanish" =
      "hola" ++ "\n\n[Translation Error: " ++ "boom" ++ "]" :=
  (C10_translate_text_boundary failClient "hola" "Spanish").2.2 "boom"
    (by decide) (by decide) rfl

/-! ### C8: translate_nlp_result frame conditions -/

/-- C8: `translate_nlp_result` is the identity for target "English",
and for every target language it can alter at most the summary and the
`event` texts of `dates_events`: `category`, `people` and `keywords`
(and the success/error fields, and each entry's `date` and the number of
entries) are unchanged. -/
theorem C8_translate_nlp_result_frame (c : Client) (r : ProcDict) (target : String) :
    translate_nlp_result c r "English" = r ∧
    (translate_nlp_result c r target).category = r.category ∧
    (translate_nlp_result c r target).people = r.people ∧
    (translate_nlp_result c r target).keywords = r.keywords ∧
    (translate_nlp_result c r target).success = r.success ∧
    (translate_nlp_result c r target).error = r.error ∧
    (translate_nlp_result c r target).dates_events.map (List.map DateEvent.date) =
      r.dates_events.map (List.map DateEvent.date) ∧
    (translate_nlp_result c r target).dates_events.map List.length =
      r.dates_events.map List.length := by
  refine ⟨by simp [translate_nlp_result], ?_⟩
  unfold translate_nlp_result
  by_cases ht : target = "English"
  · simp [ht]
  · simp only [ht, if_false]
    cases hs : r.summary <;> cases hd : r.dates_events <;>
      (try split) <;> (try split) <;>
      simp_all [List.map_map, Function.comp, apply_ite DateEvent.date,
        apply_ite ProcDict.category, apply_ite ProcDict.people,
        apply_ite ProcDict.keywords, apply_ite ProcDict.success,
        apply_ite ProcDict.error, apply_ite ProcDict.dates_events]

/-! ### C1: the orchestrator's single failure boundary -/

/-- C1: `process_article` always returns either a success or a failure
dictionary: the `error` field is present exactly when `success` is
false; when the staged pipeline succeeds, the result carries `summary`,
`people`, `dates_events`, `category`, `keywords`, `topics` and no
`error` field; when any stage raises, the result is only
`success=False` plus the captured error message. -/
theorem C1_process_article_boundary (m : Model) (text title : String) :
    ((process_article m text title).error.isSome ↔
      (process_article m text title).success = false) ∧
    (∀ v, runStages m text = .ok v →
      process_article m text title =
        ⟨true, some v.1, some v.2.1, some v.2.2.1, some v.2.2.2.1,
          some v.2.2.2.2.1, some v.2.2.2.2.2, none⟩) ∧
    (∀ e, runStages m text = .error e →
      process_article m text title =
        ⟨false, none, none, none, none, none, none, some e⟩) := by
  unfold process_article
  cases h : runStages m text with
  | ok v =>
    obtain ⟨s, p, d, c, k, t⟩ := v
    simp
  | error e => simp

/-- Witness for C1: the failure branch on a model whose `nlp` raises,
and the success branch on the empty document. -/
theorem C1_witness :
    process_article errModel "t" "" =
      ⟨false, none, none, none, none, none, none, some "boom"⟩ ∧
    process_article okModel "" "" =
      ⟨true, some "", some [], some [], some "General", some [], some [], none⟩ := by
  constructor
  · exact (C1_process_article_boundary errModel "t" "").2.2 "boom" rfl
  · refine (C1_process_article_boundary okModel "" "").2.1 ("", [], [], "General", [], []) ?_
    simp [runStages, create_summary, extract_people, extract_dates_events,
      determine_category, extract_keywords, identify_topics, okModel, emptyDoc,
      ebind_ok, epure, pyStrip, pySplit, pySplitAux, wordFreq, mostCommon,
      catScores, catWords, category_keywords, mkTopic]

/-! ### Dedup helper lemmas (for C2 and C9) -/

theorem foldl_dedup_eq [DecidableEq α] (l acc : List α) :
    l.foldl (fun acc a => if a ∈ acc then acc else acc ++ [a]) acc =
      acc ++ dedupFSAux acc l := by
  induction l generalizing acc with
  | nil => simp [dedupFSAux]
  | cons a t ih =>
    by_cases h : a ∈ acc
    · simp [dedupFSAux, h, ih]
    · simp only [List.foldl_cons, dedupFSAux, h, if_neg, if_false]
      rw [ih (acc ++ [a])]
      simp

theorem mem_dedupFSAux [DecidableEq α] (seen l : List α) (x : α) :
    x ∈ dedupFSAux seen l ↔ x ∈ l ∧ x ∉ seen := by
  induction l generalizing seen with
  | nil => simp [dedupFSAux]
  | cons a t ih =>
    by_cases h : a ∈ seen
    · simp only [dedupFSAux, h, if_true, ih, List.mem_cons]
      constructor
      · rintro ⟨hx, hs⟩; exact ⟨Or.inr hx, hs⟩
      · rintro ⟨hx | hx, hs⟩
        · subst hx; exact absurd h hs
        · exact ⟨hx, hs⟩
    · simp only [dedupFSAux, h, if_false, List.mem_cons, ih]
      constructor
      · rintro (rfl | ⟨hx, hs⟩)
        · exact ⟨Or.inl rfl, h⟩
        · refine ⟨Or.inr hx, fun hc => hs ?_⟩
          simp [hc]
      · rintro ⟨rfl | hx, hs⟩
        · exact Or.inl rfl
        · by_cases hxa : x = a
          · exact Or.inl hxa
          · exact Or.inr ⟨hx, by simp [hs, hxa]⟩

theorem dedupFSAux_sublist [DecidableEq α] (seen l : List α) :
    List.Sublist (dedupFSAux seen l) l := by
  induction l generalizing seen with
  | nil => simp [dedupFSAux]
  | cons a t ih =>
    by_cases h : a ∈ seen
    · simp only [dedupFSAux, h, if_true]
      exact (ih seen).cons a
    · simp only [dedupFSAux, h, if_false]
      exact (ih (seen ++ [a])).cons₂ a

theorem dedupFSAux_nodup [DecidableEq α] (seen l : List α) :
    (dedupFSAux seen l).Nodup := by
  induction l generalizing seen with
  | nil => simp [dedupFSAux]
  | cons a t ih =>
    by_cases h : a ∈ seen
    · simp only [dedupFSAux, h, if_true]; exact ih seen
    · simp only [dedupFSAux, h, if_false, List.nodup_cons]
      refine ⟨fun hc => ?_, ih (seen ++ [a])⟩
      rw [mem_dedupFSAux] at hc
      simp at hc

/-! ### C9: extract_people dedup, order, and error swallowing -/

/-- C9: `extract_people` returns the `PERSON` spans deduplicated by
exact (case-sensitive) text equality in first-seen order, truncated to
the first 10 — a nodup sublist of the person texts in document order —
and any internal recognizer error yields `[]` instead of propagating. -/
theorem C9_extract_people_dedup (m : Model) (text : String) :
    (∀ e, m.nlp text = .error e → extract_people m text = []) ∧
    (∀ doc, m.nlp text = .ok doc →
      extract_people m text =
        (dedupFirstSeen ((doc.ents.filter (fun en => en.label = "PERSON")).map
          Ent.text)).take 10 ∧
      (extract_people m text).Nodup ∧
      List.Sublist (extract_people m text)
        ((doc.ents.filter (fun en => en.label = "PERSON")).map Ent.text)) := by
  constructor
  · intro e he
    simp [extract_people, he]
  · intro doc hdoc
    have hfold :
        extract_people m text =
          (dedupFirstSeen ((doc.ents.filter (fun en => en.label = "PERSON")).map
            Ent.text)).take 10 := by
      simp only [extract_people, hdoc]
      rw [← List.foldl_map (f := Ent.text)
        (g := fun acc s => if s ∈ acc then acc else acc ++ [s])]
      rw [foldl_dedup_eq]
      simp [dedupFirstSeen]
    refine ⟨hfold, ?_, ?_⟩
    · rw [hfold]
      exact (dedupFSAux_nodup [] _).sublist (List.take_sublist _ _)
    · rw [hfold]
      exact (List.take_sublist _ _).trans (dedupFSAux_sublist [] _)

/-- Witness for C9: the duplicate "Alice Smith" is dropped, the ORG span
is ignored, order is first-seen; a raising recognizer yields `[]`. -/
theorem C9_witness :
    extract_people personModel "t" = ["Alice Smith", "Bob Lee"] ∧
    extract_people errModel "t" = [] := by
  constructor
  · have h := ((C9_extract_people_dedup personModel "t").2 personDoc rfl).1
    rw [h]; decide
  · exact (C9_extract_people_dedup errModel "t").1 "boom" rfl

/-- Inversion for a successful `Except` bind. -/
theorem ebind_ok_inv {α β : Type} {x : Except String α} {f : α → Except String β}
    {b : β} (h : (x >>= f) = .ok b) : ∃ a, x = .ok a ∧ f a = .ok b := by
  cases x with
  | error e => simp [ebind_err] at h
  | ok a => exact ⟨a, rfl, h⟩

/-! ### C2: output length bounds -/

/-- C2: on every input, `extract_keywords` returns at most
`max_keywords` keywords, `extract_people` at most 10 people,
`extract_dates_events` at most 5 date-event pairs, and
`identify_topics` at most `max_topics` topics. -/
theorem C2_length_bounds (m : Model) (text : String) (max_keywords max_topics : Nat) :
    (∀ l, extract_keywords m text max_keywords = .ok l → l.length ≤ max_keywords) ∧
    (extract_people m text).length ≤ 10 ∧
    (∀ l, extract_dates_events m text = .ok l → l.length ≤ 5) ∧
    (∀ l, identify_topics m text max_topics = .ok l → l.length ≤ max_topics) := by
  refine ⟨?_, ?_, ?_, ?_⟩
  · intro l hl
    cases h : m.nlp text with
    | error e => simp [extract_keywords, h, ebind_err] at hl
    | ok doc =>
      simp only [extract_keywords, h, ebind_ok, epure, Except.ok.injEq] at hl
      subst hl
      simp only [List.length_map, mostCommon]
      exact (List.length_take_le _ _)
  · cases h : m.nlp text with
    | error e => simp [extract_people, h]
    | ok doc =>
      simp only [extract_people, h]
      exact List.length_take_le _ _
  · intro l hl
    cases h : m.nlp text with
    | error e => simp [extract_dates_events, h, ebind_err] at hl
    | ok doc =>
      simp only [extract_dates_events, h, ebind_ok] at hl
      obtain ⟨des, -, hpure⟩ := ebind_ok_inv hl
      simp only [epure, Except.ok.injEq] at hpure
      subst hpure
      exact List.length_take_le _ _
  · intro l hl
    cases h : m.nlp text with
    | error e => simp [identify_topics, h, ebind_err] at hl
    | ok doc =>
      simp only [identify_topics, h, ebind_ok] at hl
      obtain ⟨groups, -, hpure⟩ := ebind_ok_inv hl
      simp only [epure, Except.ok.injEq] at hpure
      subst hpure
      exact List.length_take_le _ _

/-- Witness for C2: the bounds at concrete models (a nonempty people
list, and the empty-document model for the fallible stages). -/
theorem C2_witness :
    ([] : List NlpKeyword).length ≤ 10 ∧
    (extract_people personModel "t").length ≤ 10 ∧
    ([] : List DateEvent).length ≤ 5 ∧
    ([] : List Topic).length ≤ 5 := by
  refine ⟨?_, (C2_length_bounds personModel "t" 10 5).2.1, ?_, ?_⟩
  · refine (C2_length_bounds okModel "" 10 5).1 [] ?_
    simp [extract_keywords, okModel, emptyDoc, ebind_ok, epure, wordFreq, mostCommon]
  · refine (C2_length_bounds okModel "" 10 5).2.2.1 [] ?_
    simp [extract_dates_events, okModel, emptyDoc, ebind_ok, epure]
  · refine (C2_length_bounds okModel "" 10 5).2.2.2 [] ?_
    simp [identify_topics, okModel, emptyDoc, ebind_ok, epure, pySplit, pySplitAux,
      pyStrip, mostCommon]

/-! ### C7: graceful degradation on empty input -/

/-- C7: on the empty text (for which spaCy yields a document with no
sentences, tokens or entities), every extractor returns an empty
sequence, the classifier returns the catch-all "General", the
summarizer returns "" and `process_article` succeeds — no stage
raises. -/
theorem C7_empty_input (m : Model) (doc : Doc) (h : m.nlp "" = .ok doc)
    (hs : doc.sents = []) (ht : doc.toks = []) (he : doc.ents = []) :
    create_summary m "" = .ok "" ∧
    extract_people m "" = [] ∧
    extract_dates_events m "" = .ok [] ∧
    extract_keywords m "" = .ok [] ∧
    identify_topics m "" = .ok [] ∧
    determine_category m "" = .ok "General" ∧
    process_article m "" =
      ⟨true, some "", some [], some [], some "General", some [], some [], none⟩ := by
  have h1 : create_summary m "" = .ok "" := by
    simp [create_summary, h, hs, ebind_ok, epure]
  have h2 : extract_people m "" = [] := by
    simp [extract_people, h, he]
  have h3 : extract_dates_events m "" = .ok [] := by
    simp [extract_dates_events, h, hs, ebind_ok, epure]
  have h4 : extract_keywords m "" = .ok [] := by
    simp [extract_keywords, h, ht, ebind_ok, epure, wordFreq, mostCommon]
  have h5 : identify_topics m "" = .ok [] := by
    have hpar : (List.filter (fun p => decide (p ≠ ""))
        (List.map pyStrip (pySplit "" "\n\n"))) = ([] : List String) := by decide
    simp only [identify_topics, h, ebind_ok]
    rw [hpar]
    simp [ebind_ok, epure]
  have h6 : determine_category m "" = .ok "General" := by
    have hws : catWords doc = [] := by simp [catWords, ht]
    have : (catScores doc).all (fun s => s.2 = 0) = true := by
      simp [catScores, hws, category_keywords]
    simp [determine_category, h, ebind_ok, epure, this]
  refine ⟨h1, h2, h3, h4, h5, h6, ?_⟩
  have : runStages m "" = .ok ("", [], [], "General", [], []) := by
    simp [runStages, h1, h2, h3, h4, h5, h6, ebind_ok, epure]
  simp [process_article, this]

/-- Witness for C7: the model returning the empty document. -/
theorem C7_witness :
    create_summary okModel "" = .ok "" ∧
    extract_people okModel "" = [] ∧
    extract_dates_events okModel "" = .ok [] ∧
    extract_keywords okModel "" = .ok [] ∧
    identify_topics okModel "" = .ok [] ∧
    determine_category okModel "" = .ok "General" ∧
    process_article okModel "" =
      ⟨true, some "", some [], some [], some "General", some [], some [], none⟩ :=
  C7_empty_input okModel emptyDoc rfl rfl rfl rfl

/-! ### C4: determine_category closure and stable argmax -/

/-- Specification of the fold underlying Python's
`max(l, key=lambda x: x[1])`: the result splits the list around the
first element attaining the maximum of the second components. -/
theorem pyMaxFold_spec (l : List (String × Nat)) (x : String × Nat) :
    ∃ t₁ t₂,
      x :: l = t₁ ++ (l.foldl (fun b y => if b.2 < y.2 then y else b) x) :: t₂ ∧
      (∀ y ∈ t₁, y.2 < (l.foldl (fun b y => if b.2 < y.2 then y else b) x).2) ∧
      (∀ y ∈ x :: l, y.2 ≤ (l.foldl (fun b y => if b.2 < y.2 then y else b) x).2) := by
  induction l generalizing x with
  | nil => exact ⟨[], [], rfl, by simp, by simp⟩
  | cons a t ih =>
    rw [List.foldl_cons]
    by_cases h : x.2 < a.2
    · rw [if_pos h]
      obtain ⟨t₁, t₂, hsplit, hlt, hle⟩ := ih a
      have har : a.2 ≤ (t.foldl (fun b y => if b.2 < y.2 then y else b) a).2 :=
        hle a (List.mem_cons_self a t)
      refine ⟨x :: t₁, t₂, by rw [List.cons_append, hsplit], ?_, ?_⟩
      · intro y hy
        rcases List.mem_cons.mp hy with rfl | hy
        · omega
        · exact hlt y hy
      · intro y hy
        rcases List.mem_cons.mp hy with rfl | hy
        · omega
        · exact hle y hy
    · rw [if_neg h]
      obtain ⟨t₁, t₂, hsplit, hlt, hle⟩ := ih x
      set r := t.foldl (fun b y => if b.2 < y.2 then y else b) x with hr
      have hxr : x.2 ≤ r.2 := hle x (List.mem_cons_self x t)
      match t₁, hsplit, hlt with
      | [], hsplit, hlt =>
        rw [List.nil_append, List.cons.injEq] at hsplit
        obtain ⟨hrx, hte⟩ := hsplit
        refine ⟨[], a :: t₂, ?_, by simp, ?_⟩
        · rw [List.nil_append, hte, ← hrx]
        · intro y hy
          rcases List.mem_cons.mp hy with rfl | hy
          · exact hle y (List.mem_cons_self y t)
          · rcases List.mem_cons.mp hy with rfl | hy
            · rw [← hrx]
              omega
            · exact hle y (List.mem_cons_of_mem x hy)
      | b :: t₁, hsplit, hlt =>
        rw [List.cons_append, List.cons.injEq] at hsplit
        obtain ⟨hbx, hsplit⟩ := hsplit
        subst hbx
        have hbr : x.2 < r.2 := hlt x (List.mem_cons_self x t₁)
        refine ⟨x :: a :: t₁, t₂, ?_, ?_, ?_⟩
        · rw [List.cons_append, List.cons_append, hsplit]
        · intro y hy
          rcases List.mem_cons.mp hy with rfl | hy
          · exact hbr
          · rcases List.mem_cons.mp hy with rfl | hy
            · omega
            · exact hlt y (List.mem_cons_of_mem x hy)
        · intro y hy
          rcases List.mem_cons.mp hy with rfl | hy
          · exact hle y (List.mem_cons_self y t)
          · rcases List.mem_cons.mp hy with rfl | hy
            · omega
            · exact hle y (List.mem_cons_of_mem x hy)

/-- C4: `determine_category` always returns a member of the fixed
category set; when no filtered token matches any category's keyword set
the result is the catch-all "General"; otherwise the result is the
first category (in taxonomy declaration order) attaining the maximal
score — the score list splits as `t₁ ++ (c, k) :: t₂` with every earlier
score strictly below `k` and every score at most `k`. -/
theorem C4_determine_category (m : Model) (text : String) (doc : Doc)
    (h : m.nlp text = .ok doc) :
    ∃ c, determine_category m text = .ok c ∧
      c ∈ ["Politics", "Business", "Technology", "Health", "Sports",
        "Entertainment", "Science", "General"] ∧
      ((∀ w ∈ catWords doc, ∀ ck ∈ category_keywords, w ∉ ck.2) → c = "General") ∧
      (¬ (∀ s ∈ catScores doc, s.2 = 0) →
        ∃ t₁ t₂ k, catScores doc = t₁ ++ (c, k) :: t₂ ∧
          (∀ y ∈ t₁, y.2 < k) ∧ (∀ y ∈ catScores doc, y.2 ≤ k)) := by
  by_cases hz : (catScores doc).all (fun s => s.2 = 0)
  · refine ⟨"General", ?_, by simp, fun _ => rfl, ?_⟩
    · simp [determine_category, h, ebind_ok, epure, hz]
    · intro hnz
      exact absurd (fun s hs => by simpa using (List.all_eq_true.mp hz) s hs) hnz
  · have hscore : determine_category m text = .ok (pyMaxBySecond (catScores doc)).1 := by
      simp [determine_category, h, ebind_ok, epure, hz]
    refine ⟨(pyMaxBySecond (catScores doc)).1, hscore, ?_, ?_, ?_⟩
    · obtain ⟨x, rest, hcons⟩ : ∃ x rest, catScores doc = x :: rest := by
        simp [catScores, category_keywords]
      obtain ⟨t₁, t₂, hsplit, -, -⟩ := pyMaxFold_spec rest x
      have hmem : pyMaxBySecond (catScores doc) ∈ catScores doc := by
        rw [hcons, pyMaxBySecond, hsplit]
        exact List.mem_append_right t₁ (List.mem_cons_self _ _)
      have hnames : (catScores doc).map Prod.fst =
          ["Politics", "Business", "Technology", "Health", "Sports",
            "Entertainment", "Science"] := by
        simp [catScores, category_keywords]
      have h1 : (pyMaxBySecond (catScores doc)).1 ∈
          ["Politics", "Business", "Technology", "Health", "Sports",
            "Entertainment", "Science"] := by
        rw [← hnames]
        exact List.mem_map_of_mem Prod.fst hmem
      simp only [List.mem_cons] at h1 ⊢
      tauto
    · intro hnom
      exfalso
      apply hz
      rw [List.all_eq_true]
      intro s hs
      simp only [catScores, List.mem_map] at hs
      obtain ⟨ck, hck, rfl⟩ := hs
      simp only [decide_eq_true_eq]
      rw [List.countP_eq_zero]
      intro w hw
      simpa using hnom w hw ck hck
    · intro _
      obtain ⟨x, rest, hcons⟩ : ∃ x rest, catScores doc = x :: rest := by
        simp [catScores, category_keywords]
      obtain ⟨t₁, t₂, hsplit, hlt, hle⟩ := pyMaxFold_spec rest x
      refine ⟨t₁, t₂, (pyMaxBySecond (catScores doc)).2, ?_, ?_, ?_⟩
      · rw [hcons, pyMaxBySecond]
        simp only [Prod.mk.eta]
        exact hsplit
      · rw [hcons, pyMaxBySecond]
        exact hlt
      · rw [hcons, pyMaxBySecond]
        exact hle

/-- Witness for C4: a single Politics token selects "Politics". -/
theorem C4_witness :
    ∃ c, determine_category catModel "t" = .ok c ∧
      c ∈ ["Politics", "Business", "Technology", "Health", "Sports",
        "Entertainment", "Science", "General"] ∧
      ((∀ w ∈ catWords catDoc, ∀ ck ∈ category_keywords, w ∉ ck.2) → c = "General") ∧
      (¬ (∀ s ∈ catScores catDoc, s.2 = 0) →
        ∃ t₁ t₂ k, catScores catDoc = t₁ ++ (c, k) :: t₂ ∧
          (∀ y ∈ t₁, y.2 < k) ∧ (∀ y ∈ catScores catDoc, y.2 ≤ k)) :=
  C4_determine_category catModel "t" catDoc rfl

/-! ### C3: create_summary -/

/-- In a `Pairwise`-sorted list, every element of `take k` is related to
every element of `drop k`. -/
theorem pairwise_take_drop {α : Type} {R : α → α → Prop} {l : List α}
    (h : l.Pairwise R) (k : Nat) :
    ∀ a ∈ l.take k, ∀ b ∈ l.drop k, R a b := by
  have h' : (l.take k ++ l.drop k).Pairwise R := by
    rw [List.take_append_drop]
    exact h
  exact (List.pairwise_append.mp h').2.2

/-- C3: with at most 5 sentences `create_summary` returns the input
text verbatim; otherwise it returns exactly 5 of the (stripped) input
sentences — the indices form a strictly increasing list of positions
whose row-sum similarity scores dominate every unselected position —
joined with single spaces in original document order. -/
theorem C3_create_summary (m : Model) (text : String) (doc : Doc)
    (h : m.nlp text = .ok doc) :
    ((doc.sents.map pyStrip).length ≤ 5 → create_summary m text = .ok text) ∧
    (∀ docs, (doc.sents.map pyStrip).mapM m.nlp = .ok docs →
      5 < (doc.sents.map pyStrip).length →
      ∃ idxs : List Nat,
        idxs.length = 5 ∧
        idxs.Pairwise (· < ·) ∧
        (∀ i ∈ idxs, i < (doc.sents.map pyStrip).length) ∧
        (∀ i ∈ idxs, ∀ j, j < (doc.sents.map pyStrip).length → j ∉ idxs →
          rowScore m docs j ≤ rowScore m docs i) ∧
        create_summary m text =
          .ok (" ".intercalate
            (idxs.map (fun i => (doc.sents.map pyStrip).getD i "")))) := by
  constructor
  · intro hle
    have hle' : doc.sents.length ≤ 5 := by simpa using hle
    simp [create_summary, h, ebind_ok, epure, hle']
  · intro docs hdocs hn
    have hnle : ¬ (doc.sents.map pyStrip).length ≤ 5 := by omega
    set sentences := doc.sents.map pyStrip with hsent
    set n := sentences.length with hnn
    set scores := rowScore m docs with hscores
    set le : Nat → Nat → Bool := fun i j => decide (scores i ≤ scores j) with hrel
    have htrans : ∀ a b c : Nat, le a b → le b c → le a c := by
      intro a b c hab hbc
      simp only [hrel, decide_eq_true_eq] at hab hbc ⊢
      exact le_trans hab hbc
    have htotal : ∀ a b : Nat, le a b || le b a := by
      intro a b
      simp only [hrel, Bool.or_eq_true, decide_eq_true_eq]
      exact le_total _ _
    set ms := (List.range n).mergeSort le with hms
    set ranked := ms.reverse with hranked
    set top := ranked.take 5 with htop
    set idxs := top.mergeSort (fun i j => decide (i ≤ j)) with hidxs
    have hperm : ms.Perm (List.range n) := List.mergeSort_perm _ _
    have hlenranked : ranked.length = n := by
      rw [hranked, List.length_reverse, hms, List.length_mergeSort, List.length_range]
    have hranknd : ranked.Nodup := by
      rw [hranked, List.nodup_reverse]
      exact hperm.nodup_iff.mpr (List.nodup_range n)
    have htopnd : top.Nodup := hranknd.sublist (List.take_sublist _ _)
    have hidxperm : idxs.Perm top := List.mergeSort_perm _ _
    have hidxnd : idxs.Nodup := hidxperm.nodup_iff.mpr htopnd
    have hlentop : top.length = 5 := by
      rw [htop, List.length_take, hlenranked]
      omega
    have hmemtop : ∀ i, i ∈ idxs ↔ i ∈ top := fun i => hidxperm.mem_iff
    have hmemrank : ∀ i, i ∈ ranked ↔ i < n := by
      intro i
      rw [hranked, List.mem_reverse, hms, List.mem_mergeSort, List.mem_range]
    have hsortedms : ms.Pairwise (fun i j => scores i ≤ scores j) := by
      have := List.sorted_mergeSort htrans htotal (List.range n)
      rw [← hms] at this
      exact this.imp (by intro a b hab; simpa [hrel] using hab)
    have hsortedrank : ranked.Pairwise (fun i j => scores j ≤ scores i) := by
      rw [hranked, List.pairwise_reverse]
      exact hsortedms
    have hdom : ∀ i ∈ top, ∀ j ∈ ranked.drop 5, scores j ≤ scores i :=
      pairwise_take_drop hsortedrank 5
    refine ⟨idxs, ?_, ?_, ?_, ?_, ?_⟩
    · rw [hidxs, List.length_mergeSort, hlentop]
    · have hpw : idxs.Pairwise (fun i j => i ≤ j) := by
        have := @List.sorted_mergeSort Nat (fun i j : Nat => decide (i ≤ j))
          (by intro a b c hab hbc
              simp only [decide_eq_true_eq] at hab hbc ⊢
              omega)
          (by intro a b
              simp only [Bool.or_eq_true, decide_eq_true_eq]
              omega) top
        rw [← hidxs] at this
        exact this.imp (by intro a b hab; simpa using hab)
      have := hpw.and hidxnd
      exact this.imp (by rintro a b ⟨hab, hne⟩; omega)
    · intro i hi
      rw [hmemtop] at hi
      rw [← hmemrank]
      exact (List.take_sublist 5 ranked).mem hi
    · intro i hi j hj hjn
      rw [hmemtop] at hi
      rw [hmemtop] at hjn
      have hjr : j ∈ ranked := (hmemrank j).mpr hj
      have : j ∈ ranked.take 5 ++ ranked.drop 5 := by
        rw [List.take_append_drop]
        exact hjr
      rcases List.mem_append.mp this with hcase | hcase
      · exact absurd hcase hjn
      · exact hdom i hi j hcase
    · simp only [create_summary, h, ebind_ok, hnle, if_false, ite_false,
        hdocs, epure, ebind_ok]

/-- Witness for C3: the six-sentence model (all similarity scores zero);
the five selected indices are `[1, 2, 3, 4, 5]`. -/
theorem C3_witness :
    (∃ idxs : List Nat,
      idxs.length = 5 ∧
      idxs.Pairwise (· < ·) ∧
      (∀ i ∈ idxs, i < (sixSents.map pyStrip).length) ∧
      (∀ i ∈ idxs, ∀ j, j < (sixSents.map pyStrip).length → j ∉ idxs →
        rowScore sumModel (List.replicate 6 emptyDoc) j ≤
          rowScore sumModel (List.replicate 6 emptyDoc) i) ∧
      create_summary sumModel "TXT" =
        .ok (" ".intercalate
          (idxs.map (fun i => (sixSents.map pyStrip).getD i "")))) ∧
    create_summary okModel "" = .ok "" := by
  constructor
  · have h := (C3_create_summary sumModel "TXT" ⟨sixSents, [], [], false⟩ rfl).2
      (List.replicate 6 emptyDoc) rfl (by decide)
    simpa using h
  · exact (C3_create_summary okModel "" emptyDoc rfl).1 (by decide)

/-! ### C5: extract_keywords — rounding and ranking lemmas -/

theorem roundHalfEven_bounds {q : ℚ} (h0 : 0 ≤ q) (h1 : q ≤ 100) :
    0 ≤ roundHalfEven q ∧ roundHalfEven q ≤ 100 := by
  have hf0 : (0 : ℤ) ≤ ⌊q⌋ := Int.floor_nonneg.mpr h0
  have hf100 : ⌊q⌋ ≤ 100 := by
    have h := Int.floor_le_floor (α := ℚ) h1
    have h' : ⌊(100 : ℚ)⌋ = 100 := by norm_num
    omega
  have hf99 : ¬ (q - ⌊q⌋ < 1/2) → ⌊q⌋ ≤ 99 := by
    intro hge
    by_contra hlt
    have h100 : ⌊q⌋ = 100 := by omega
    rw [h100] at hge
    push_neg at hge
    have hc : ((100 : ℤ) : ℚ) = (100 : ℚ) := by norm_num
    rw [hc] at hge
    linarith
  unfold roundHalfEven
  split_ifs with ha hb hc
  · exact ⟨hf0, hf100⟩
  · have := hf99 ha
    constructor <;> omega
  · exact ⟨hf0, hf100⟩
  · have := hf99 ha
    constructor <;> omega

theorem round2_bounds {q : ℚ} (h0 : 0 ≤ q) (h1 : q ≤ 1) :
    0 ≤ round2 q ∧ round2 q ≤ 1 := by
  have h := roundHalfEven_bounds (q := q * 100) (by linarith) (by linarith)
  unfold round2
  constructor
  · apply div_nonneg _ (by norm_num)
    exact_mod_cast h.1
  · rw [div_le_one (by norm_num)]
    exact_mod_cast h.2

theorem round2_one : round2 1 = 1 := by
  have hfl : ⌊(1 : ℚ) * 100⌋ = 100 := by norm_num
  unfold round2 roundHalfEven
  rw [hfl]
  norm_num

theorem bump_pos {l : List (String × Nat)} (h : ∀ p ∈ l, 0 < p.2) (k : String) :
    ∀ p ∈ bump l k, 0 < p.2 := by
  induction l with
  | nil => simp [bump]
  | cons a t ih =>
    obtain ⟨s, c⟩ := a
    by_cases hk : s = k
    · simp only [bump, hk, if_true]
      intro p hp
      rcases List.mem_cons.mp hp with rfl | hp
      · simp
      · exact h p (List.mem_cons_of_mem _ hp)
    · simp only [bump, hk, if_false]
      intro p hp
      rcases List.mem_cons.mp hp with rfl | hp
      · exact h _ (List.mem_cons_self _ _)
      · exact ih (fun q hq => h q (List.mem_cons_of_mem _ hq)) p hp

theorem wordFreq_pos (toks : List Token) : ∀ p ∈ wordFreq toks, 0 < p.2 := by
  suffices h : ∀ (ts : List Token) (acc : List (String × Nat)),
      (∀ p ∈ acc, 0 < p.2) →
      ∀ p ∈ ts.foldl (fun acc t =>
        if kwCandidate t then bump acc (pyLower t.lemma_) else acc) acc, 0 < p.2 by
    exact h toks [] (by simp)
  intro ts
  induction ts with
  | nil => intro acc hacc; simpa using hacc
  | cons t ts ih =>
    intro acc hacc
    simp only [List.foldl_cons]
    by_cases hc : kwCandidate t
    · simp only [hc, if_true]
      exact ih _ (bump_pos hacc _)
    · simp only [hc, if_false]
      exact ih _ hacc

/-- The head of `most_common`: the first entry of the stable descending
sort is an entry of the counter whose count dominates every count, and
`most_common(1)` is exactly that head. -/
theorem mostCommon_head_max (wf : List (String × Nat)) (k : Nat) (hk : 0 < k)
    (hne : wf ≠ []) :
    ∃ w c rest, mostCommon wf k = (w, c) :: rest ∧ (w, c) ∈ wf ∧
      (∀ p ∈ wf, p.2 ≤ c) ∧ mostCommon wf 1 = [(w, c)] := by
  have hperm : (wf.mergeSort (fun a b => b.2 ≤ a.2)).Perm wf := List.mergeSort_perm _ _
  have hsorted : (wf.mergeSort (fun a b => b.2 ≤ a.2)).Pairwise
      (fun a b => b.2 ≤ a.2) := by
    have := @List.sorted_mergeSort (String × Nat)
      (fun a b : String × Nat => decide (b.2 ≤ a.2))
      (by intro a b c hab hbc
          simp only [decide_eq_true_eq] at hab hbc ⊢
          omega)
      (by intro a b
          simp only [Bool.or_eq_true, decide_eq_true_eq]
          omega) wf
    exact this.imp (by intro a b hab; simpa using hab)
  obtain ⟨hd, tl, hcons⟩ : ∃ hd tl, wf.mergeSort (fun a b => b.2 ≤ a.2) = hd :: tl := by
    cases hms : wf.mergeSort (fun a b => b.2 ≤ a.2) with
    | nil =>
      rw [hms] at hperm
      exact absurd (hperm.symm.eq_nil) hne
    | cons hd tl => exact ⟨hd, tl, rfl⟩
  refine ⟨hd.1, hd.2, tl.take (k - 1), ?_, ?_, ?_, ?_⟩
  · rw [mostCommon, hcons]
    cases k with
    | zero => omega
    | succ k' => simp [List.take_succ_cons]
  · have : hd ∈ wf.mergeSort (fun a b => b.2 ≤ a.2) := by
      rw [hcons]; exact List.mem_cons_self _ _
    simpa using hperm.mem_iff.mp this
  · intro p hp
    have hp' : p ∈ wf.mergeSort (fun a b => b.2 ≤ a.2) := hperm.mem_iff.mpr hp
    rw [hcons] at hp'
    rcases List.mem_cons.mp hp' with rfl | hp'
    · exact le_refl _
    · rw [hcons] at hsorted
      exact (List.pairwise_cons.mp hsorted).1 p hp'
  · rw [mostCommon, hcons]
    simp

/-- C5 (amended): when the text has at least one qualifying token,
`extract_keywords` succeeds and (1) every relevance lies in [0, 1] (the
two-decimal rounding can reach 0 for lemmas whose frequency is below
1/200 of the maximum); (2) the first returned keyword corresponds to a
highest-frequency qualifying lemma and has relevance exactly 1.0; and
(3) the returned sequence is the first `max_keywords` entries of the
stable descending-by-frequency ordering of the lemma counter — i.e. the
top lemmas by frequency with ties broken by first-encountered order. -/
theorem C5_extract_keywords_amended (m : Model) (text : String) (doc : Doc)
    (h : m.nlp text = .ok doc) (max_keywords : Nat) (hk : 0 < max_keywords)
    (hne : wordFreq doc.toks ≠ []) :
    ∃ kws w maxf sc,
      extract_keywords m text max_keywords = .ok kws ∧
      (∀ kw ∈ kws, 0 ≤ kw.relevance ∧ kw.relevance ≤ 1) ∧
      (w, maxf) ∈ wordFreq doc.toks ∧
      (∀ p ∈ wordFreq doc.toks, p.2 ≤ maxf) ∧
      (∃ rest, kws = ⟨w, 1⟩ :: rest) ∧
      sc.Perm (wordFreq doc.toks) ∧
      sc.Pairwise (fun a b => b.2 ≤ a.2) ∧
      (∀ a b, List.Sublist [a, b] (wordFreq doc.toks) → b.2 ≤ a.2 →
        List.Sublist [a, b] sc) ∧
      kws = (sc.take max_keywords).map
        (fun p => ⟨p.1, round2 ((p.2 : ℚ) / (maxf : ℚ))⟩) := by
  obtain ⟨w, c, rest, hmc, hmem, hmax, hmc1⟩ :=
    mostCommon_head_max (wordFreq doc.toks) max_keywords hk hne
  have hcpos : 0 < c := wordFreq_pos doc.toks (w, c) hmem
  have hex : extract_keywords m text max_keywords =
      .ok ((mostCommon (wordFreq doc.toks) max_keywords).map
        (fun p => ⟨p.1, round2 ((p.2 : ℚ) / (c : ℚ))⟩)) := by
    simp only [extract_keywords, h, ebind_ok, epure, hmc1]
  refine ⟨_, w, c, (wordFreq doc.toks).mergeSort (fun a b => b.2 ≤ a.2),
    hex, ?_, hmem, hmax, ?_, List.mergeSort_perm _ _, ?_, ?_, rfl⟩
  · intro kw hkw
    simp only [List.mem_map] at hkw
    obtain ⟨p, hp, rfl⟩ := hkw
    have hpwf : p ∈ wordFreq doc.toks := by
      have h1 : p ∈ (wordFreq doc.toks).mergeSort (fun a b => b.2 ≤ a.2) :=
        (List.take_sublist _ _).mem hp
      exact (List.mergeSort_perm _ _).mem_iff.mp h1
    have hppos : 0 < p.2 := wordFreq_pos doc.toks p hpwf
    have hple : p.2 ≤ c := hmax p hpwf
    have h0 : (0 : ℚ) ≤ (p.2 : ℚ) / (c : ℚ) := by positivity
    have h1 : (p.2 : ℚ) / (c : ℚ) ≤ 1 := by
      rw [div_le_one (by exact_mod_cast hcpos)]
      exact_mod_cast hple
    exact round2_bounds h0 h1
  · refine ⟨rest.map (fun p => ⟨p.1, round2 ((p.2 : ℚ) / (c : ℚ))⟩), ?_⟩
    rw [hmc]
    simp only [List.map_cons]
    congr 1
    have hcc : ((c : ℚ) / (c : ℚ)) = 1 := by
      rw [div_self]
      exact_mod_cast hcpos.ne.symm
    rw [hcc, round2_one]
  · have := @List.sorted_mergeSort (String × Nat)
      (fun a b : String × Nat => decide (b.2 ≤ a.2))
      (by intro a b c hab hbc
          simp only [decide_eq_true_eq] at hab hbc ⊢
          omega)
      (by intro a b
          simp only [Bool.or_eq_true, decide_eq_true_eq]
          omega) (wordFreq doc.toks)
    exact this.imp (by intro a b hab; simpa using hab)
  · intro a b hsub hab
    exact List.pair_sublist_mergeSort
      (by intro a b c hab hbc
          simp only [decide_eq_true_eq] at hab hbc ⊢
          omega)
      (by intro a b
          simp only [Bool.or_eq_true, decide_eq_true_eq]
          omega)
      (by simpa using hab) hsub

/-- Witness for C5: the single-token Politics document. -/
theorem C5_witness :
    ∃ kws w maxf sc,
      extract_keywords catModel "t" 10 = .ok kws ∧
      (∀ kw ∈ kws, 0 ≤ kw.relevance ∧ kw.relevance ≤ 1) ∧
      (w, maxf) ∈ wordFreq catDoc.toks ∧
      (∀ p ∈ wordFreq catDoc.toks, p.2 ≤ maxf) ∧
      (∃ rest, kws = ⟨w, 1⟩ :: rest) ∧
      sc.Perm (wordFreq catDoc.toks) ∧
      sc.Pairwise (fun a b => b.2 ≤ a.2) ∧
      (∀ a b, List.Sublist [a, b] (wordFreq catDoc.toks) → b.2 ≤ a.2 →
        List.Sublist [a, b] sc) ∧
      kws = (sc.take 10).map
        (fun p => ⟨p.1, round2 ((p.2 : ℚ) / (maxf : ℚ))⟩) :=
  C5_extract_keywords_amended catModel "t" catDoc rfl 10 (by decide) (by decide)

set_option maxRecDepth 100000 in
/-- Counterexample to C5 as stated: with lemma frequencies 201, 200 and
1, the keyword "ccc" is emitted with relevance `round(1/201, 2) = 0.0`,
which is not in (0, 1]; and the keyword "bbb" has relevance
`round(200/201, 2) = 1.0` although its lemma is not the
highest-frequency one ("aaa", frequency 201). -/
theorem C5_counterexample :
    extract_keywords kwModel "t" 10 =
      .ok [⟨"aaa", 1⟩, ⟨"bbb", 1⟩, ⟨"ccc", 0⟩] ∧
    wordFreq kwDoc.toks = [("aaa", 201), ("bbb", 200), ("ccc", 1)] ∧
    ¬ (0 < (⟨"ccc", (0 : ℚ)⟩ : NlpKeyword).relevance) ∧
    (⟨"bbb", (1 : ℚ)⟩ : NlpKeyword).relevance = 1 ∧
    ("bbb", (200 : Nat)) ≠ ("aaa", (201 : Nat)) := by
  have hwf : wordFreq kwDoc.toks = [("aaa", 201), ("bbb", 200), ("ccc", 1)] := by
    decide
  have hms : ([("aaa", 201), ("bbb", 200), ("ccc", 1)] :
      List (String × Nat)).mergeSort (fun a b => b.2 ≤ a.2) =
      [("aaa", 201), ("bbb", 200), ("ccc", 1)] :=
    List.mergeSort_of_sorted (by decide)
  have r1 : round2 ((201 : ℚ) / 201) = 1 := by
    norm_num [round2_one]
  have hfl2 : ⌊(200 : ℚ) / 201 * 100⌋ = 99 := by
    apply Int.floor_eq_iff.mpr
    constructor <;> norm_num
  have r2 : round2 ((200 : ℚ) / 201) = 1 := by
    unfold round2 roundHalfEven
    rw [hfl2]
    norm_num
  have hfl3 : ⌊(1 : ℚ) / 201 * 100⌋ = 0 := by
    apply Int.floor_eq_iff.mpr
    constructor <;> norm_num
  have r3 : round2 ((1 : ℚ) / 201) = 0 := by
    unfold round2 roundHalfEven
    rw [hfl3]
    norm_num
  have hnlp : kwModel.nlp "t" = .ok kwDoc := rfl
  have hex : extract_keywords kwModel "t" 10 =
      .ok [⟨"aaa", 1⟩, ⟨"bbb", 1⟩, ⟨"ccc", 0⟩] := by
    simp only [extract_keywords, hnlp, ebind_ok, epure, hwf, mostCommon, hms]
    norm_num [r1, r2, r3, round2_one]
  exact ⟨hex, hwf, by norm_num, rfl, by decide⟩

/-! ### C6: extract_dates_events -/

/-- A left fold in `Except` that appends at most one element per input,
as an effect-free `filterMap`: if each step's emission is
characterized by `emitE` and every emission succeeds with `emit`, the
fold succeeds with the concatenation. -/
theorem foldlM_emit_eq {α β : Type} (step : List β → α → Except String (List β))
    (emitE : α → Except String (Option β)) (emit : α → Option β) (ss : List α)
    (hstep : ∀ acc a, step acc a =
      emitE a >>= (fun r => match r with
        | none => pure acc
        | some b => pure (acc ++ [b])))
    (hemit : ∀ a ∈ ss, emitE a = .ok (emit a)) (acc : List β) :
    ss.foldlM step acc = .ok (acc ++ ss.filterMap emit) := by
  induction ss generalizing acc with
  | nil => simp [epure]
  | cons a t ih =>
    rw [List.foldlM_cons, hstep, hemit a (List.mem_cons_self a t), ebind_ok]
    cases hme : emit a with
    | none =>
      simp only [epure, ebind_ok]
      rw [ih (fun x hx => hemit x (List.mem_cons_of_mem a hx)) acc]
      simp [List.filterMap_cons, hme]
    | some b =>
      simp only [epure, ebind_ok]
      rw [ih (fun x hx => hemit x (List.mem_cons_of_mem a hx)) (acc ++ [b])]
      simp [List.filterMap_cons, hme]

/-- C6 (amended): fixing a successful date search `fd` per stripped
sentence, `extract_dates_events` returns the first five of the
candidate list, which contains an entry for a sentence exactly when the
sentence is shorter than 300 characters and the derived event — the
sentence with every occurrence of the matched date string removed, then
trimmed — is longer than 10 characters.  A sentence whose lower-casing
contains "today" (with no model date and no regex match) matches the
relative-time branch with the capitalized date string "Today": the
replacement removes only that capitalized form, so a sentence containing
only lowercase "today" keeps it in the event text. -/
theorem C6_dates_events_amended (m : Model) (text : String) (doc : Doc)
    (h : m.nlp text = .ok doc) (fd : String → Option String)
    (hf : ∀ s ∈ doc.sents.map pyStrip, findDate m s = .ok (fd s)) :
    extract_dates_events m text =
      .ok (((doc.sents.map pyStrip).filterMap (fun s =>
        match fd s with
        | none => none
        | some d =>
          if s.length < 300 then
            if 10 < (pyStrip (pyReplace s d "")).length then
              some ⟨d, pyStrip (pyReplace s d "")⟩
            else none
          else none)).take 5) ∧
    (∀ s docS, m.nlp s = .ok docS →
      (∀ e ∈ docS.ents, e.label ≠ "DATE") →
      (∀ p ∈ date_patterns, m.reSearch p s = none) →
      hasSub (pyLower s) "today" = true →
      findDate m s = .ok (some "Today")) := by
  constructor
  · simp only [extract_dates_events, h, ebind_ok]
    rw [foldlM_emit_eq _
      (fun s => (findDate m s) >>= (fun r => pure (match r with
        | none => none
        | some d =>
          if s.length < 300 then
            if 10 < (pyStrip (pyReplace s d "")).length then
              some (⟨d, pyStrip (pyReplace s d "")⟩ : DateEvent)
            else none
          else none)))
      (fun s => match fd s with
        | none => none
        | some d =>
          if s.length < 300 then
            if 10 < (pyStrip (pyReplace s d "")).length then
              some (⟨d, pyStrip (pyReplace s d "")⟩ : DateEvent)
            else none
          else none)
      (doc.sents.map pyStrip) ?_ ?_ []]
    · simp [epure, ebind_ok]
    · intro acc a
      cases hfd : findDate m a with
      | error e => simp [hfd, ebind_err]
      | ok r =>
        simp only [hfd, ebind_ok, epure]
        cases r with
        | none => simp
        | some d =>
          by_cases h1 : a.length < 300
          · by_cases h2 : 10 < (pyStrip (pyReplace a d "")).length
            · simp [h1, h2]
            · simp [h1, h2]
          · simp [h1]
    · intro a ha
      simp only [hf a ha, ebind_ok, epure]
  · intro s docS hnlp hnoDate hnoRe htoday
    have hfind : docS.ents.find? (fun e => e.label = "DATE") = none := by
      rw [List.find?_eq_none]
      intro e he
      simpa using hnoDate e he
    have hre : date_patterns.findSome? (fun p => m.reSearch p s) = none := by
      simp only [date_patterns, List.findSome?_cons, List.findSome?_nil]
      rw [hnoRe _ (by simp [date_patterns]), hnoRe _ (by simp [date_patterns]),
        hnoRe _ (by simp [date_patterns])]
    have hcap : pyCapitalize "today" = "Today" := by decide
    simp only [findDate, hnlp, ebind_ok, hfind, hre, time_indicators,
      List.find?_cons, htoday, hcap, epure]

set_option maxRecDepth 10000 in
/-- Counterexample to C6 as stated: for the sentence "Barack Obama met
with leaders today.", the relative-time branch matches "today" but
capitalizes the date string to "Today" before the replacement, so
nothing is removed: the emitted event equals the whole sentence, not
the sentence with "today" removed (which is a different string). -/
theorem C6_counterexample :
    extract_dates_events dateModel "TXT" =
      .ok [⟨"Today", "Barack Obama met with leaders today."⟩] ∧
    hasSub (pyLower obamaSent) "today" = true ∧
    pyStrip (pyReplace obamaSent "today" "") ≠ obamaSent ∧
    (⟨"Today", obamaSent⟩ : DateEvent).event = obamaSent := by
  refine ⟨?_, by decide, by decide, rfl⟩
  rfl

set_option maxRecDepth 10000 in
/-- Witness for the amended C6 theorem at the concrete relative-time
model: the candidate list characterization instantiated on the
"Barack Obama met with leaders today." sentence. -/
theorem C6_witness :
    extract_dates_events dateModel "TXT" =
      .ok (([obamaSent].filterMap (fun s =>
        if s.length < 300 then
          if 10 < (pyStrip (pyReplace s "Today" "")).length then
            some (⟨"Today", pyStrip (pyReplace s "Today" "")⟩ : DateEvent)
          else none
        else none)).take 5) := by
  have hps : pyStrip obamaSent = obamaSent := by decide
  have hf : ∀ s ∈ ((⟨[obamaSent], [], [], false⟩ : Doc).sents.map pyStrip),
      findDate dateModel s = .ok ((fun _ => some "Today") s) := by
    intro s hs
    simp only [Doc.sents, List.map_cons, List.map_nil, hps, List.mem_cons,
      List.not_mem_nil, or_false] at hs
    subst hs
    rfl
  have h := (C6_dates_events_amended dateModel "TXT" ⟨[obamaSent], [], [], false⟩ rfl
    (fun _ => some "Today") hf).1
  simpa [hps] using h
